import Mathlib

/-!
Verification of the conversational crypto agent (src/main.py, class CryptoAgent).

The mutable state of a CryptoAgent instance is modelled by AgentState:
the conversation context (list of role/content messages), the price cache
(association list keyed by symbol) and the rate-limit request timestamps.
Timestamps are modelled as integers (seconds); the source uses time.time
floats, but none of the verified properties depends on fractional times.

The external world (the HTTP price API and the language-model completion
API) is passed in as explicit inputs: each operation that performs an
external call takes the outcome of that call as a parameter, including the
possibility that the call raised an exception.  Python exceptions that a
function lets escape are modelled by the PyResult type.
-/

structure Message where
  role : String
  content : String
  deriving DecidableEq

structure CacheEntry where
  price : String
  timestamp : Int
  deriving DecidableEq

structure AgentState where
  context : List Message
  cache : List (String × CacheEntry)
  request_timestamps : List Int
  deriving DecidableEq

/-- Python: an escaping exception (constructor exn carries the exception
class name) versus a normal return value. -/
inductive PyResult (α : Type) where
  | ok (a : α)
  | exn (e : String)
  deriving DecidableEq

/-- self.rate_limit_window = 60 (seconds). -/
def rate_limit_window : Int := 60

/-- self.rate_limit_max_requests = 5. -/
def rate_limit_max_requests : Nat := 5

/-- self.context.append({"role": role, "content": content}). -/
def add_message_to_context (role content : String) (s : AgentState) : AgentState :=
  { s with context := s.context ++ [⟨role, content⟩] }

/-- Model of CryptoAgent.is_rate_limited, lines 25-37 of src/main.py.
Prunes timestamps t with now - t >= window, then either rejects (>= max
requests retained) or records now and accepts.  Returns the Python return
value (True = rate limited) together with the updated state. -/
def is_rate_limited (now : Int) (s : AgentState) : Bool × AgentState :=
  let ts := s.request_timestamps.filter (fun t => decide (now - t < rate_limit_window))
  if rate_limit_max_requests ≤ ts.length then
    (true, { s with request_timestamps := ts })
  else
    (false, { s with request_timestamps := ts ++ [now] })

/-- A sequence of calls to is_rate_limited at the given times, threading the
state; returns the list of results in order together with the final state. -/
def runCalls : List Int → AgentState → List Bool × AgentState
  | [], s => ([], s)
  | t :: ts, s =>
    let r := is_rate_limited t s
    let rest := runCalls ts r.2
    (r.1 :: rest.1, rest.2)

/-- Two timestamps in call order that lie inside one rate-limit window of
each other. -/
def withinPair (a b : Int) : Prop := a ≤ b ∧ b - a < rate_limit_window

instance : DecidableRel withinPair := fun a b => by
  unfold withinPair; infer_instance

/-!
JSON values, as produced by Python json parsing.  Numbers are modelled as
integers: non-integral numeric literals (floating point) are outside this
model, and none of the verified properties involves them.
-/

inductive Json where
  | obj (fields : List (String × Json))
  | arr (items : List Json)
  | str (text : String)
  | num (n : Int)
  | bool (b : Bool)
  | null

/-- Lookup of a key in a parsed JSON object.  A JSON object with duplicate
keys yields a Python dict keeping the last binding, hence the reverse. -/
def jsonLookup (fields : List (String × Json)) (k : String) : Option Json :=
  fields.reverse.lookup k

/-- Python d.get(k, default): requires d to be a dict (anything else raises
AttributeError, since only dict has the .get method). -/
def pyDictGet (j : Json) (k : String) (default : Json) : PyResult Json :=
  match j with
  | .obj fields => .ok ((jsonLookup fields k).getD default)
  | _ => .exn "AttributeError"

/-- Python d.get(k) with no default: returns None (modelled as none) when
the key is absent; raises AttributeError when d is not a dict. -/
def pyDictGetOpt (j : Json) (k : String) : PyResult (Option Json) :=
  match j with
  | .obj fields => .ok (jsonLookup fields k)
  | _ => .exn "AttributeError"

/-- Python d[k] subscription: KeyError when the key is absent from a dict,
TypeError when subscripting a non-container with a string key. -/
def pySubscript (j : Json) (k : String) : PyResult Json :=
  match j with
  | .obj fields =>
    match jsonLookup fields k with
    | some v => .ok v
    | none => .exn "KeyError"
  | _ => .exn "TypeError"

/-- Python truthiness of a value that may be None (if price: ...). -/
def pyTruthy : Option Json → Bool
  | none => false
  | some .null => false
  | some (.bool b) => b
  | some (.num n) => n != 0
  | some (.str s) => s != ""
  | some (.arr l) => !l.isEmpty
  | some (.obj l) => !l.isEmpty

/-- Python str() of a JSON value as used inside the price f-string.  Only
numbers and strings occur in practice; the container cases approximate the
Python repr, and no verified property depends on them. -/
def pyStr : Json → String
  | .num n => toString n
  | .str s => s
  | .bool true => "True"
  | .bool false => "False"
  | .null => "None"
  | .arr _ => "[...]"
  | .obj _ => "\x7b...\x7d"

/-- Outcome of the requests.get call for the price API, as observed by
get_crypto_price.  jsonError covers response.json() raising; with the
requests library in use, JSONDecodeError is a RequestException, so it is
caught by the same except clause as transport and HTTP-status errors. -/
inductive ApiResult where
  | transportError
  | jsonError
  | success (body : Json)

/-- The fixed rate-limit advisory string of get_crypto_price. -/
def rateLimitMessage : String :=
  "Rate limit exceeded. Please wait a moment before trying again."

/-- Python dict assignment self.cache[sym] = entry on the association-list
model of the cache. -/
def dictInsert (k : String) (v : CacheEntry) (d : List (String × CacheEntry)) :
    List (String × CacheEntry) :=
  (k, v) :: d.filter (fun p => p.1 != k)

/-- The formatted price string of line 68 of src/main.py. -/
def priceMessage (sym : String) (priceOpt : Option Json) : String :=
  "The current price of " ++ sym ++ " is $" ++
    (match priceOpt with | some v => pyStr v | none => "None") ++ " USD."

/-- Result of one call to get_crypto_price: the Python outcome (a returned
string or an escaping exception), whether requests.get was invoked, and the
updated agent state. -/
structure FetchResult where
  outcome : PyResult String
  usedNetwork : Bool
  state : AgentState
  deriving DecidableEq

/-- The body of get_crypto_price from line 55 on (the API call and the
try/except block), reached when the rate limiter accepted the call and the
cache had no fresh entry.  price = data.get(crypto_symbol, dict()).get(
"usd"); a 2xx body that is valid JSON but not an object makes the first
.get raise AttributeError, which the except clause (RequestException only)
does not catch, so it escapes. -/
def fetchFromApi (now : Int) (api : ApiResult) (sym : String) (s : AgentState) : FetchResult :=
  match api with
  | .transportError => ⟨.ok "Failed to fetch price.", true, s⟩
  | .jsonError => ⟨.ok "Failed to fetch price.", true, s⟩
  | .success data =>
    match pyDictGet data sym (Json.obj []) with
    | .exn e => ⟨.exn e, true, s⟩
    | .ok inner =>
      match pyDictGetOpt inner "usd" with
      | .exn e => ⟨.exn e, true, s⟩
      | .ok priceOpt =>
        if pyTruthy priceOpt then
          let msg := priceMessage sym priceOpt
          ⟨.ok msg, true, { s with cache := dictInsert sym ⟨msg, now⟩ s.cache }⟩
        else
          ⟨.ok "Price not available.", true, s⟩

/-- Model of CryptoAgent.get_crypto_price, lines 39-74 of src/main.py:
rate-limit check, then fresh-cache lookup, then the API call. -/
def get_crypto_price (now : Int) (api : ApiResult) (sym : String) (s : AgentState) :
    FetchResult :=
  match is_rate_limited now s with
  | (true, s1) => ⟨.ok rateLimitMessage, false, s1⟩
  | (false, s1) =>
    match s1.cache.lookup sym with
    | some cache_entry =>
      if now - cache_entry.timestamp < 60 then
        ⟨.ok cache_entry.price, false, s1⟩
      else
        fetchFromApi now api sym s1
    | none => fetchFromApi now api sym s1

/-!
Model of Python json.loads on the JSON fragments the agent parses: LLM
tool-call arguments and the fenced intent object.  The parser is fuel
driven; the fuel passed by jsonParse (twice the input length plus two) is
an upper bound on the recursion depth, since along every chain of recursive
calls at least one input character is consumed every two steps.
-/

def jsonWs (c : Char) : Bool :=
  [' ', '\t', '\n', '\r'].contains c

def skipWs (cs : List Char) : List Char :=
  cs.dropWhile jsonWs

/-- Single-character JSON string escapes, by decoded code point. -/
def escResolve : Char → Option Char
  | 'n' => some (Char.ofNat 10)
  | 't' => some (Char.ofNat 9)
  | 'r' => some (Char.ofNat 13)
  | 'b' => some (Char.ofNat 8)
  | 'f' => some (Char.ofNat 12)
  | '"' => some (Char.ofNat 34)
  | '/' => some (Char.ofNat 47)
  | '\\' => some (Char.ofNat 92)
  | _ => none

/-- Value of one hexadecimal digit, written over the code point. -/
def hexVal (c : Char) : Option Nat :=
  let n := c.toNat
  if 48 ≤ n && n ≤ 57 then some (n - 48)
  else if 97 ≤ n && n ≤ 102 then some (n - 87)
  else if 65 ≤ n && n ≤ 70 then some (n - 55)
  else none

/-- Body of a JSON string literal, after the opening quote: returns the
decoded characters and the input remaining after the closing quote.
Unescaped control characters are invalid; a lone \u escape is decoded
directly (surrogate pairing is outside this model). -/
def parseStrBody : Nat → List Char → Option (List Char × List Char)
  | 0, _ => none
  | _, [] => none
  | fuel + 1, c :: cs =>
    if c == '"' then some ([], cs)
    else if c == '\\' then
      match cs with
      | 'u' :: h1 :: h2 :: h3 :: h4 :: cs2 =>
        match hexVal h1, hexVal h2, hexVal h3, hexVal h4 with
        | some a, some b, some c3, some d =>
          (parseStrBody fuel cs2).map
            (fun p => (Char.ofNat (((a * 16 + b) * 16 + c3) * 16 + d) :: p.1, p.2))
        | _, _, _, _ => none
      | e :: cs2 =>
        match escResolve e with
        | some ch => (parseStrBody fuel cs2).map (fun p => (ch :: p.1, p.2))
        | none => none
      | [] => none
    else if c.toNat < 32 then none
    else (parseStrBody fuel cs).map (fun p => (c :: p.1, p.2))

def digitsVal (ds : List Char) : Nat :=
  ds.foldl (fun acc c => 10 * acc + (c.toNat - 48)) 0

/-- Magnitude of an integer JSON numeric literal: a run of digits without a
superfluous leading zero, not continued by a fraction or exponent part (a
non-integral literal is outside this model and rejected). -/
def parseNumMag (cs : List Char) : Option (Int × List Char) :=
  let p := cs.span (fun c => c.isDigit)
  match p.1 with
  | [] => none
  | d :: ds =>
    if d == '0' && !ds.isEmpty then none
    else
      match p.2 with
      | c :: _ =>
        if c == '.' || c == 'e' || c == 'E' then none
        else some ((digitsVal (d :: ds) : Int), p.2)
      | [] => some ((digitsVal (d :: ds) : Int), p.2)

/-- An integer JSON numeric literal with optional leading minus. -/
def parseNum (cs : List Char) : Option (Json × List Char) :=
  match cs with
  | '-' :: tl => (parseNumMag tl).map (fun p => (.num (-p.1), p.2))
  | _ => (parseNumMag cs).map (fun p => (.num p.1, p.2))

mutual

def parseVal : Nat → List Char → Option (Json × List Char)
  | 0, _ => none
  | fuel + 1, cs =>
    match skipWs cs with
    | [] => none
    | c :: rest =>
      if c == '\x7b' then parseObjFields fuel rest true
      else if c == '[' then parseArrItems fuel rest true
      else if c == '"' then
        (parseStrBody fuel rest).map (fun p => (.str (String.mk p.1), p.2))
      else if c == 't' then
        if "rue".toList.isPrefixOf rest then some (.bool true, rest.drop 3) else none
      else if c == 'f' then
        if "alse".toList.isPrefixOf rest then some (.bool false, rest.drop 4) else none
      else if c == 'n' then
        if "ull".toList.isPrefixOf rest then some (.null, rest.drop 3) else none
      else if c == '-' || c.isDigit then parseNum (c :: rest)
      else none

def parseObjFields : Nat → List Char → Bool → Option (Json × List Char)
  | 0, _, _ => none
  | fuel + 1, cs, first =>
    match skipWs cs with
    | [] => none
    | c :: rest =>
      if first && c == '\x7d' then some (.obj [], rest)
      else if c == '"' then
        match parseStrBody fuel rest with
        | none => none
        | some (key, rest2) =>
          match skipWs rest2 with
          | ':' :: rest3 =>
            match parseVal fuel rest3 with
            | none => none
            | some (v, rest4) =>
              match skipWs rest4 with
              | ',' :: rest5 =>
                match parseObjFields fuel rest5 false with
                | some (.obj fields, rest6) => some (.obj ((String.mk key, v) :: fields), rest6)
                | _ => none
              | '\x7d' :: rest5 => some (.obj [(String.mk key, v)], rest5)
              | _ => none
          | _ => none
      else none

def parseArrItems : Nat → List Char → Bool → Option (Json × List Char)
  | 0, _, _ => none
  | fuel + 1, cs, first =>
    match skipWs cs with
    | [] => none
    | c :: rest =>
      if first && c == ']' then some (.arr [], rest)
      else
        match parseVal fuel (c :: rest) with
        | none => none
        | some (v, rest2) =>
          match skipWs rest2 with
          | ',' :: rest3 =>
            match parseArrItems fuel rest3 false with
            | some (.arr items, rest4) => some (.arr (v :: items), rest4)
            | _ => none
          | ']' :: rest3 => some (.arr [v], rest3)
          | _ => none

end

/-- Model of json.loads: parse one JSON value and require that only
whitespace remains (otherwise Python raises the Extra data error); none
models a raised JSONDecodeError. -/
def jsonParse (s : String) : Option Json :=
  match parseVal (2 * s.length + 2) s.data with
  | some (v, rest) => if (skipWs rest).isEmpty then some v else none
  | none => none

/-!
Model of re.search applied to the fixed pattern of classify_intent, line 91
of src/main.py: three backticks, "json", a newline, then a capture group of
an opening brace, a shortest run of arbitrary characters (DOTALL), and a
closing brace, followed by a newline and three closing backticks.  re.search
finds the leftmost starting position admitting a match; at that position the
non-greedy group takes the earliest possible closing position.
-/

def fenceOpen : List Char := "```json\n\x7b".toList

def fenceCloseTail : List Char := "\n```".toList

/-- Scan for the earliest closing brace that is followed by the closing
fence, returning the group characters strictly between the braces. -/
def scanClose : List Char → Option (List Char)
  | [] => none
  | c :: cs =>
    if c == '\x7d' && fenceCloseTail.isPrefixOf cs then some []
    else (scanClose cs).map (fun inner => c :: inner)

/-- Scan for the leftmost position where the opening fence (including the
opening brace of the group) matches and a closing position exists; on
failure at one position the search resumes one character further, as
re.search does. -/
def scanOpen : List Char → Option (List Char)
  | [] => none
  | c :: cs =>
    if fenceOpen.isPrefixOf (c :: cs) then
      match scanClose ((c :: cs).drop fenceOpen.length) with
      | some inner => some ('\x7b' :: inner ++ ['\x7d'])
      | none => scanOpen cs
    else scanOpen cs

/-- json_match.group(1) of line 91-93: the captured JSON object text,
braces included, or none when re.search finds no match. -/
def extractFenced (s : String) : Option String :=
  (scanOpen s.data).map String.mk

/-- Outcome of the completion call inside classify_intent, as observed by
the code: either the call (or the subsequent attribute accesses on the
response object) raised, or a response text was obtained. -/
inductive LlmReply where
  | exn (e : String)
  | text (s : String)

/-- Model of CryptoAgent.classify_intent, lines 76-104 of src/main.py.
Returns the value of the parsed object field "intent" as Python produces
it: some v for a present field, none for Python None (field absent).  Every
failure path returns the string "general": no fenced match, json.loads
raising (caught by the first except clause), intent_data not being a dict
(AttributeError, same clause), or the completion call raising (caught by
except Exception).  The function is total: no exception escapes. -/
def classify_intent (r : LlmReply) : Option Json :=
  match r with
  | .exn _ => some (.str "general")
  | .text response_text =>
    match extractFenced response_text with
    | none => some (.str "general")
    | some group =>
      match jsonParse group with
      | none => some (.str "general")
      | some (.obj fields) => jsonLookup fields "intent"
      | some _ => some (.str "general")

/-!
The dispatch handlers.  The completion call of the crypto and general
branches is modelled by CompletionResult: either the call raised, or it
produced a message carrying optional tool calls and a content text.
-/

structure ToolCall where
  name : String
  arguments : String

structure CompMessage where
  tool_calls : Option (List ToolCall)
  content : String

inductive CompletionResult where
  | exn (e : String)
  | ok (msg : CompMessage)

/-- The scripted introduction of lines 145-148 of src/main.py. -/
def introMessage : String :=
  "Hello! You are interacting with a cryptocurrency expert. I can provide real-time crypto prices and answer related questions. If you misspell a crypto name, I will correct it for you."

/-- Lines 143-148: append the introduction when the context holds no
message with the assistant role. -/
def introStep (s : AgentState) : AgentState :=
  if s.context.any (fun m => m.role == "assistant") then s
  else add_message_to_context "assistant" introMessage s

/-- One iteration of the tool-call loop of lines 161-167: parse the
JSON-encoded arguments (json.loads), subscript them with "crypto_symbol",
call get_crypto_price, and append its result as an assistant message.
Returns the state together with the exception, if any, that the iteration
raised; a tool call with a different function name is skipped.  A
non-string crypto_symbol value is rendered by pyStr (Python would pass the
raw value through; no verified property depends on that case). -/
def processOneToolCall (now : Int) (api : String → ApiResult) (c : ToolCall)
    (s : AgentState) : AgentState × Option String :=
  if c.name == "get_crypto_price" then
    match jsonParse c.arguments with
    | none => (s, some "JSONDecodeError")
    | some args =>
      match pySubscript args "crypto_symbol" with
      | .exn e => (s, some e)
      | .ok v =>
        let sym := pyStr v
        let r := get_crypto_price now (api sym) sym s
        match r.outcome with
        | .exn e => (r.state, some e)
        | .ok price_info => (add_message_to_context "assistant" price_info r.state, none)
  else (s, none)

/-- The for loop over tool_calls: iterations run in order until one raises;
the raised exception aborts the loop (and is then caught by the except
clauses of process_crypto_query). -/
def runToolCalls (now : Int) (api : String → ApiResult) :
    List ToolCall → AgentState → AgentState × Option String
  | [], s => (s, none)
  | c :: rest, s =>
    match processOneToolCall now api c s with
    | (s1, none) => runToolCalls now api rest s1
    | (s1, some e) => (s1, some e)

/-- The try block of process_crypto_query, lines 150-175: on a completion
failure nothing is appended; with nonempty tool calls the loop runs; with
no (or empty) tool calls the content is appended as an assistant message.
The second component is the exception caught by the except clauses (the
handler logs it and returns normally), none when the block completed. -/
def cryptoTry (now : Int) (comp : CompletionResult) (api : String → ApiResult)
    (s : AgentState) : AgentState × Option String :=
  match comp with
  | .exn e => (s, some e)
  | .ok msg =>
    match msg.tool_calls with
    | some (c :: cs) => runToolCalls now api (c :: cs) s
    | _ => (add_message_to_context "assistant" msg.content s, none)

/-- Model of CryptoAgent.process_crypto_query, lines 121-175 of src/main.py:
the introduction step followed by the try block; every exception raised
inside the block is caught (logged) and the handler returns normally. -/
def process_crypto_query (now : Int) (comp : CompletionResult) (api : String → ApiResult)
    (s : AgentState) : AgentState × Option String :=
  cryptoTry now comp api (introStep s)

/-- The fixed acknowledgment of process_language_change, line 180. -/
def langChangeMessage : String :=
  "I have noted your language change request. You can continue using the new language, but I will respond in English to ensure consistency and clarity."

/-- Model of CryptoAgent.process_language_change, lines 177-182. -/
def process_language_change (s : AgentState) : AgentState :=
  add_message_to_context "assistant" langChangeMessage s

/-- Model of CryptoAgent.process_general_query, lines 184-197: on a raised
completion (or attribute access) nothing is appended and the exception is
caught; otherwise the content is appended as an assistant message. -/
def process_general_query (comp : CompletionResult) (s : AgentState) :
    AgentState × Option String :=
  match comp with
  | .exn e => (s, some e)
  | .ok msg => (add_message_to_context "assistant" msg.content s, none)

/-- Model of CryptoAgent.process_user_message, lines 106-119 of src/main.py:
append the user message, classify, and dispatch on the intent value; any
value other than the strings "crypto" and "language_change" (including
Python None) reaches the general branch. -/
def process_user_message (now : Int) (classifyReply : LlmReply) (comp : CompletionResult)
    (api : String → ApiResult) (user_message : String) (s : AgentState) : AgentState :=
  let s1 := add_message_to_context "user" user_message s
  match classify_intent classifyReply with
  | some (.str "crypto") => (process_crypto_query now comp api s1).1
  | some (.str "language_change") => process_language_change s1
  | _ => (process_general_query comp s1).1

lemma is_rate_limited_cache (now : Int) (s : AgentState) :
    (is_rate_limited now s).2.cache = s.cache := by
  unfold is_rate_limited
  by_cases h : rate_limit_max_requests ≤
      (s.request_timestamps.filter (fun t => decide (now - t < rate_limit_window))).length
  · rw [if_pos h]
  · rw [if_neg h]

lemma is_rate_limited_context (now : Int) (s : AgentState) :
    (is_rate_limited now s).2.context = s.context := by
  unfold is_rate_limited
  by_cases h : rate_limit_max_requests ≤
      (s.request_timestamps.filter (fun t => decide (now - t < rate_limit_window))).length
  · rw [if_pos h]
  · rw [if_neg h]

lemma fetchFromApi_timestamps (now : Int) (api : ApiResult) (sym : String) (s : AgentState) :
    (fetchFromApi now api sym s).state.request_timestamps = s.request_timestamps := by
  unfold fetchFromApi
  split
  · rfl
  · rfl
  · split
    · rfl
    · split
      · rfl
      · split
        · rfl
        · rfl

lemma fetchFromApi_context (now : Int) (api : ApiResult) (sym : String) (s : AgentState) :
    (fetchFromApi now api sym s).state.context = s.context := by
  unfold fetchFromApi
  split
  · rfl
  · rfl
  · split
    · rfl
    · split
      · rfl
      · split
        · rfl
        · rfl

lemma get_crypto_price_context (now : Int) (api : ApiResult) (sym : String) (s : AgentState) :
    (get_crypto_price now api sym s).state.context = s.context := by
  unfold get_crypto_price
  cases hrl : is_rate_limited now s with
  | mk b s1 =>
    have hctx : s1.context = s.context := by
      have := is_rate_limited_context now s
      rw [hrl] at this
      exact this
    cases b with
    | true => simpa using hctx
    | false =>
      simp only
      cases hl : s1.cache.lookup sym with
      | none => rw [fetchFromApi_context]; exact hctx
      | some cache_entry =>
        simp only
        split
        · exact hctx
        · rw [fetchFromApi_context]; exact hctx

lemma is_rate_limited_false_timestamps (now : Int) (s : AgentState)
    (h : (is_rate_limited now s).1 = false) :
    (is_rate_limited now s).2.request_timestamps =
      s.request_timestamps.filter (fun t => decide (now - t < rate_limit_window)) ++ [now] := by
  unfold is_rate_limited at *
  by_cases hc : rate_limit_max_requests ≤
      (s.request_timestamps.filter (fun t => decide (now - t < rate_limit_window))).length
  · rw [if_pos hc] at h
    simp at h
  · rw [if_neg hc]

lemma get_crypto_price_limited (now : Int) (api : ApiResult) (sym : String) (s : AgentState)
    (h : (is_rate_limited now s).1 = true) :
    get_crypto_price now api sym s = ⟨.ok rateLimitMessage, false, (is_rate_limited now s).2⟩ := by
  unfold get_crypto_price
  cases hrl : is_rate_limited now s with
  | mk b s1 =>
    rw [hrl] at h
    have hb : b = true := h
    subst hb
    rfl

lemma get_crypto_price_hit (now : Int) (api : ApiResult) (sym : String) (s : AgentState)
    (ce : CacheEntry)
    (h : (is_rate_limited now s).1 = false)
    (hlook : s.cache.lookup sym = some ce)
    (hfresh : now - ce.timestamp < 60) :
    get_crypto_price now api sym s = ⟨.ok ce.price, false, (is_rate_limited now s).2⟩ := by
  unfold get_crypto_price
  cases hrl : is_rate_limited now s with
  | mk b s1 =>
    rw [hrl] at h
    have hb : b = false := h
    subst hb
    have hc : s1.cache = s.cache := by
      have := is_rate_limited_cache now s
      rw [hrl] at this
      exact this
    simp only
    rw [hc, hlook]
    simp only
    rw [if_pos hfresh]

lemma get_crypto_price_miss (now : Int) (api : ApiResult) (sym : String) (s : AgentState)
    (h : (is_rate_limited now s).1 = false)
    (hmiss : ∀ ce, s.cache.lookup sym = some ce → ¬(now - ce.timestamp < 60)) :
    get_crypto_price now api sym s = fetchFromApi now api sym (is_rate_limited now s).2 := by
  unfold get_crypto_price
  cases hrl : is_rate_limited now s with
  | mk b s1 =>
    rw [hrl] at h
    have hb : b = false := h
    subst hb
    have hc : s1.cache = s.cache := by
      have := is_rate_limited_cache now s
      rw [hrl] at this
      exact this
    simp only
    cases hl : s1.cache.lookup sym with
    | none => rfl
    | some ce =>
      have hstale := hmiss ce (by rw [← hc]; exact hl)
      simp only
      rw [if_neg hstale]

lemma fetchFromApi_sym_absent (now : Int) (sym : String) (s : AgentState)
    (fields : List (String × Json)) (h : jsonLookup fields sym = none) :
    fetchFromApi now (.success (.obj fields)) sym s =
      ⟨.ok "Price not available.", true, s⟩ := by
  simp only [fetchFromApi, pyDictGet, h, Option.getD_none, pyDictGetOpt]
  rfl

lemma fetchFromApi_usd_absent (now : Int) (sym : String) (s : AgentState)
    (fields inner : List (String × Json))
    (h1 : jsonLookup fields sym = some (.obj inner))
    (h2 : jsonLookup inner "usd" = none) :
    fetchFromApi now (.success (.obj fields)) sym s =
      ⟨.ok "Price not available.", true, s⟩ := by
  simp only [fetchFromApi, pyDictGet, h1, Option.getD_some, pyDictGetOpt, h2]
  rfl

lemma fetchFromApi_usd_num (now : Int) (sym : String) (s : AgentState)
    (fields inner : List (String × Json)) (p : Int)
    (h1 : jsonLookup fields sym = some (.obj inner))
    (h2 : jsonLookup inner "usd" = some (.num p))
    (hp : p ≠ 0) :
    fetchFromApi now (.success (.obj fields)) sym s =
      ⟨.ok (priceMessage sym (some (.num p))), true,
       { s with cache := dictInsert sym ⟨priceMessage sym (some (.num p)), now⟩ s.cache }⟩ := by
  have ht : pyTruthy (some (.num p)) = true := by
    simp [pyTruthy, bne_iff_ne, hp]
  simp only [fetchFromApi, pyDictGet, h1, Option.getD_some, pyDictGetOpt, h2, ht, if_true]

lemma lookup_dictInsert (k : String) (v : CacheEntry) (d : List (String × CacheEntry)) :
    (dictInsert k v d).lookup k = some v := by
  simp [dictInsert, List.lookup]

lemma get_crypto_price_timestamps (now : Int) (api : ApiResult) (sym : String) (s : AgentState) :
    (get_crypto_price now api sym s).state.request_timestamps =
      (is_rate_limited now s).2.request_timestamps := by
  unfold get_crypto_price
  cases hrl : is_rate_limited now s with
  | mk b s1 =>
    cases b with
    | true => rfl
    | false =>
      simp only
      cases hl : s1.cache.lookup sym with
      | none => rw [fetchFromApi_timestamps]
      | some ce =>
        simp only
        split
        · rfl
        · rw [fetchFromApi_timestamps]

lemma processOneToolCall_context (now : Int) (api : String → ApiResult) (c : ToolCall)
    (s : AgentState) :
    ∃ tail, (processOneToolCall now api c s).1.context = s.context ++ tail := by
  unfold processOneToolCall
  split
  · split
    · exact ⟨[], by simp⟩
    · split
      · exact ⟨[], by simp⟩
      · dsimp only
        split
        · exact ⟨[], by simp [get_crypto_price_context]⟩
        · next price_info _ =>
          refine ⟨[⟨"assistant", price_info⟩], ?_⟩
          simp [add_message_to_context, get_crypto_price_context]
  · exact ⟨[], by simp⟩

lemma processOneToolCall_fail_context (now : Int) (api : String → ApiResult) (c : ToolCall)
    (s s1 : AgentState) (e : String)
    (h : processOneToolCall now api c s = (s1, some e)) :
    s1.context = s.context := by
  unfold processOneToolCall at h
  split at h
  · split at h
    · cases h
      rfl
    · split at h
      · cases h
        rfl
      · dsimp only at h
        split at h
        · cases h
          rw [get_crypto_price_context]
        · cases h
  · cases h

lemma runToolCalls_context (now : Int) (api : String → ApiResult) (calls : List ToolCall) :
    ∀ s : AgentState, ∃ tail, (runToolCalls now api calls s).1.context = s.context ++ tail := by
  induction calls with
  | nil => intro s; exact ⟨[], by simp [runToolCalls]⟩
  | cons c rest ih =>
    intro s
    unfold runToolCalls
    cases h : processOneToolCall now api c s with
    | mk s1 oe =>
      obtain ⟨t1, ht1⟩ := processOneToolCall_context now api c s
      rw [h] at ht1
      cases oe with
      | none =>
        obtain ⟨t2, ht2⟩ := ih s1
        exact ⟨t1 ++ t2, by simp only; rw [ht2, ht1, List.append_assoc]⟩
      | some e => exact ⟨t1, ht1⟩

lemma cryptoTry_context (now : Int) (comp : CompletionResult) (api : String → ApiResult)
    (s : AgentState) :
    ∃ tail, (cryptoTry now comp api s).1.context = s.context ++ tail := by
  cases comp with
  | exn e => exact ⟨[], by simp [cryptoTry]⟩
  | ok msg =>
    cases htc : msg.tool_calls with
    | none =>
      refine ⟨[⟨"assistant", msg.content⟩], ?_⟩
      simp [cryptoTry, htc, add_message_to_context]
    | some calls =>
      cases calls with
      | nil =>
        refine ⟨[⟨"assistant", msg.content⟩], ?_⟩
        simp [cryptoTry, htc, add_message_to_context]
      | cons c cs =>
        have h := runToolCalls_context now api (c :: cs) s
        simpa [cryptoTry, htc] using h

lemma introStep_context (s : AgentState) :
    ∃ tail, (introStep s).context = s.context ++ tail := by
  unfold introStep
  split
  · exact ⟨[], by simp⟩
  · exact ⟨[⟨"assistant", introMessage⟩], by simp [add_message_to_context]⟩

lemma process_crypto_query_context (now : Int) (comp : CompletionResult)
    (api : String → ApiResult) (s : AgentState) :
    ∃ tail, (process_crypto_query now comp api s).1.context = s.context ++ tail := by
  unfold process_crypto_query
  obtain ⟨t1, ht1⟩ := introStep_context s
  obtain ⟨t2, ht2⟩ := cryptoTry_context now comp api (introStep s)
  exact ⟨t1 ++ t2, by rw [ht2, ht1, List.append_assoc]⟩

lemma process_general_query_context (comp : CompletionResult) (s : AgentState) :
    ∃ tail, (process_general_query comp s).1.context = s.context ++ tail := by
  cases comp with
  | exn e => exact ⟨[], by simp [process_general_query]⟩
  | ok msg =>
    exact ⟨[⟨"assistant", msg.content⟩],
      by simp [process_general_query, add_message_to_context]⟩

lemma process_user_message_context (now : Int) (classifyReply : LlmReply)
    (comp : CompletionResult) (api : String → ApiResult) (user_message : String)
    (s : AgentState) :
    ∃ tail, (process_user_message now classifyReply comp api user_message s).context =
      s.context ++ tail := by
  unfold process_user_message
  have hadd : (add_message_to_context "user" user_message s).context =
      s.context ++ [⟨"user", user_message⟩] := rfl
  split
  · obtain ⟨t, ht⟩ := process_crypto_query_context now comp api
      (add_message_to_context "user" user_message s)
    exact ⟨⟨"user", user_message⟩ :: t, by rw [ht, hadd, List.append_assoc]; rfl⟩
  · exact ⟨[⟨"user", user_message⟩, ⟨"assistant", langChangeMessage⟩],
      by simp [process_language_change, add_message_to_context]⟩
  · obtain ⟨t, ht⟩ := process_general_query_context comp
      (add_message_to_context "user" user_message s)
    exact ⟨⟨"user", user_message⟩ :: t, by rw [ht, hadd, List.append_assoc]; rfl⟩

lemma any_assistant_append (l tail : List Message)
    (h : l.any (fun m => m.role == "assistant") = true) :
    (l ++ tail).any (fun m => m.role == "assistant") = true := by
  rw [List.any_append, h, Bool.true_or]

lemma filter_window_keep (now : Int) (l : List Int) (h : ∀ t ∈ l, now - t < rate_limit_window) :
    l.filter (fun t => decide (now - t < rate_limit_window)) = l := by
  rw [List.filter_eq_self]
  intro a ha
  simpa using h a ha

lemma is_rate_limited_accept (now : Int) (s : AgentState)
    (h1 : ∀ x ∈ s.request_timestamps, now - x < rate_limit_window)
    (h2 : s.request_timestamps.length < rate_limit_max_requests) :
    is_rate_limited now s =
      (false, { s with request_timestamps := s.request_timestamps ++ [now] }) := by
  unfold is_rate_limited
  rw [filter_window_keep now _ h1, if_neg (by omega)]

lemma is_rate_limited_reject (now : Int) (s : AgentState)
    (h1 : ∀ x ∈ s.request_timestamps, now - x < rate_limit_window)
    (h2 : rate_limit_max_requests ≤ s.request_timestamps.length) :
    is_rate_limited now s = (true, s) := by
  unfold is_rate_limited
  rw [filter_window_keep now _ h1, if_pos h2]

lemma is_rate_limited_prunes (now : Int) (s : AgentState) :
    ∀ x ∈ (is_rate_limited now s).2.request_timestamps, now - x < rate_limit_window := by
  unfold is_rate_limited
  intro x hx
  by_cases h : rate_limit_max_requests ≤
      (s.request_timestamps.filter (fun t => decide (now - t < rate_limit_window))).length
  · rw [if_pos h] at hx
    simp only at hx
    have := List.of_mem_filter hx
    simpa using this
  · rw [if_neg h] at hx
    simp only [List.mem_append, List.mem_singleton] at hx
    rcases hx with hx | hx
    · have := List.of_mem_filter hx
      simpa using this
    · subst hx
      simp [rate_limit_window]

lemma runCalls_accepts (times : List Int) :
    ∀ (done : List Int) (s : AgentState), s.request_timestamps = done →
    (done ++ times).Pairwise withinPair →
    (done ++ times).length ≤ rate_limit_max_requests →
    runCalls times s =
      (List.replicate times.length false, { s with request_timestamps := done ++ times }) := by
  induction times with
  | nil =>
    intro done s hs _ _
    simp [runCalls, ← hs]
  | cons t ts ih =>
    intro done s hs hp hl
    have hkeep : ∀ x ∈ s.request_timestamps, t - x < rate_limit_window := by
      intro x hx
      rw [hs] at hx
      have := (List.pairwise_append.mp hp).2.2 x hx t (by simp)
      exact this.2
    have hlen : s.request_timestamps.length < rate_limit_max_requests := by
      rw [hs]
      have := hl
      simp only [List.length_append, List.length_cons] at this
      omega
    have hacc := is_rate_limited_accept t s hkeep hlen
    have hstep : (done ++ [t]) ++ ts = done ++ t :: ts := by simp
    have ih2 := ih (done ++ [t]) { s with request_timestamps := s.request_timestamps ++ [t] }
      (by rw [hs]) (by rw [hstep]; exact hp) (by rw [hstep]; exact hl)
    show (let r := is_rate_limited t s
          let rest := runCalls ts r.2
          (r.1 :: rest.1, rest.2)) = _
    rw [hacc]
    simp only [ih2]
    simp [List.replicate_succ]

/-- C1: starting from an empty request record, a sequence of at most five
calls to the rate-limit check whose timestamps lie pairwise within the
60-second window is accepted call by call, each timestamp being appended to
the record in order; a sixth call within the same window is rejected and its
timestamp is not recorded; and after every check each retained timestamp t
satisfies now - t < 60, i.e. every timestamp older than now - 60 has been
pruned before the decision. -/
theorem C1_rate_limiter (times : List Int) (t6 : Int) (s : AgentState)
    (hts : s.request_timestamps = [])
    (hp : times.Pairwise withinPair) :
    (times.length ≤ rate_limit_max_requests →
      runCalls times s =
        (List.replicate times.length false, { s with request_timestamps := times }))
    ∧ (times.length = rate_limit_max_requests →
        (∀ x ∈ times, t6 - x < rate_limit_window) →
        (runCalls times s).2.request_timestamps = times
        ∧ is_rate_limited t6 (runCalls times s).2 = (true, (runCalls times s).2))
    ∧ (∀ (now : Int) (st : AgentState),
        ∀ x ∈ (is_rate_limited now st).2.request_timestamps, now - x < rate_limit_window) := by
  have hrun : times.length ≤ rate_limit_max_requests →
      runCalls times s =
        (List.replicate times.length false, { s with request_timestamps := times }) := by
    intro hlen
    have := runCalls_accepts times [] s hts (by simpa using hp) (by simpa using hlen)
    simpa using this
  refine ⟨hrun, ?_, fun now st => is_rate_limited_prunes now st⟩
  intro hfive hwin
  have h1 := hrun (le_of_eq hfive)
  have hfinal : (runCalls times s).2.request_timestamps = times := by
    rw [h1]
  refine ⟨hfinal, ?_⟩
  apply is_rate_limited_reject
  · intro x hx
    rw [hfinal] at hx
    exact hwin x hx
  · rw [hfinal, hfive]

/-- Witness for C1 at the concrete call times 0, 10, 20, 30, 40 with a sixth
call at time 50, starting from a fresh agent state. -/
theorem C1_rate_limiter_witness :
    runCalls [0, 10, 20, 30, 40] ⟨[], [], []⟩ =
      ([false, false, false, false, false], ⟨[], [], [0, 10, 20, 30, 40]⟩)
    ∧ is_rate_limited 50 ⟨[], [], [0, 10, 20, 30, 40]⟩ =
      (true, ⟨[], [], [0, 10, 20, 30, 40]⟩) := by
  have h := C1_rate_limiter [0, 10, 20, 30, 40] 50 ⟨[], [], []⟩ rfl (by decide)
  have h1 := h.1 (by decide)
  have h2 := h.2.1 rfl (by decide)
  refine ⟨by simpa using h1, ?_⟩
  have h6 := h2.2
  have hst : (runCalls [0, 10, 20, 30, 40] ⟨[], [], []⟩).2 =
      (⟨[], [], [0, 10, 20, 30, 40]⟩ : AgentState) := by
    rw [h1]
  rw [hst] at h6
  exact h6

/-- C2 exhibits the failing input for the never-raises contract of
get_crypto_price: with a fresh agent, the symbol bitcoin and a 2xx response
whose body parses to a JSON array (a valid JSON body that is not an
object), the call data.get(crypto_symbol, dict()) raises AttributeError,
and the except clause, which catches only RequestException, lets it escape
to the caller instead of returning a user-displayable string.  The rest of
the state shows the call was otherwise accepted: the rate-limit slot was
consumed and the network request issued. -/
theorem C2_exception_escapes :
    get_crypto_price 0 (.success (Json.arr [])) "bitcoin" ⟨[], [], []⟩ =
      ⟨.exn "AttributeError", true, ⟨[], [], [0]⟩⟩ := by
  rfl

/-- C3 (amended): for a call that passes the rate limiter and finds no
fresh cache entry, with a 2xx body parsed as a JSON object: when the symbol
key is absent, or maps to an object without the usd key, the result is the
fixed "Price not available." string and the cache is unchanged; when the
usd key holds a nonzero numeric price p, the result is the formatted
string and that string is stored in the cache under the symbol with the
current timestamp.  (The unamended claim, asserting the formatted string
for every present price value, fails at the value 0, which Python
truthiness sends to the "Price not available." branch: see the
counterexample.) -/
theorem C3_success_parse (now : Int) (sym : String) (s : AgentState)
    (fields inner : List (String × Json)) (p : Int)
    (hrl : (is_rate_limited now s).1 = false)
    (hmiss : ∀ ce, s.cache.lookup sym = some ce → ¬(now - ce.timestamp < 60)) :
    (jsonLookup fields sym = none →
      (get_crypto_price now (.success (.obj fields)) sym s).outcome =
        .ok "Price not available."
      ∧ (get_crypto_price now (.success (.obj fields)) sym s).state.cache = s.cache)
    ∧ (jsonLookup fields sym = some (.obj inner) → jsonLookup inner "usd" = none →
      (get_crypto_price now (.success (.obj fields)) sym s).outcome =
        .ok "Price not available."
      ∧ (get_crypto_price now (.success (.obj fields)) sym s).state.cache = s.cache)
    ∧ (jsonLookup fields sym = some (.obj inner) →
       jsonLookup inner "usd" = some (.num p) → p ≠ 0 →
      (get_crypto_price now (.success (.obj fields)) sym s).outcome =
        .ok ("The current price of " ++ sym ++ " is $" ++ toString p ++ " USD.")
      ∧ (get_crypto_price now (.success (.obj fields)) sym s).state.cache =
          dictInsert sym
            ⟨"The current price of " ++ sym ++ " is $" ++ toString p ++ " USD.", now⟩
            s.cache) := by
  have hmain := get_crypto_price_miss now (.success (.obj fields)) sym s hrl hmiss
  have hcache : (is_rate_limited now s).2.cache = s.cache := is_rate_limited_cache now s
  refine ⟨?_, ?_, ?_⟩
  · intro h
    rw [hmain, fetchFromApi_sym_absent now sym _ fields h]
    exact ⟨rfl, hcache⟩
  · intro h1 h2
    rw [hmain, fetchFromApi_usd_absent now sym _ fields inner h1 h2]
    exact ⟨rfl, hcache⟩
  · intro h1 h2 hp
    rw [hmain, fetchFromApi_usd_num now sym _ fields inner p h1 h2 hp]
    have hmsg : priceMessage sym (some (.num p)) =
        "The current price of " ++ sym ++ " is $" ++ toString p ++ " USD." := rfl
    constructor
    · simp only [hmsg]
    · simp only [hmsg, hcache]

/-- Witness for C3 with the symbol bitcoin against the body keyed only by
ethereum (absent-symbol branch) and against the body with usd 65000
(present-price branch), from a fresh agent at time 0. -/
theorem C3_success_parse_witness :
    ((get_crypto_price 0 (.success (.obj [("ethereum", .obj [("usd", .num 5)])]))
        "bitcoin" ⟨[], [], []⟩).outcome = .ok "Price not available.")
    ∧ ((get_crypto_price 0 (.success (.obj [("bitcoin", .obj [("usd", .num 65000)])]))
        "bitcoin" ⟨[], [], []⟩).outcome =
          .ok "The current price of bitcoin is $65000 USD.")
    ∧ ((get_crypto_price 0 (.success (.obj [("bitcoin", .obj [("usd", .num 65000)])]))
        "bitcoin" ⟨[], [], []⟩).state.cache =
          [("bitcoin", ⟨"The current price of bitcoin is $65000 USD.", 0⟩)]) := by
  have habs := (C3_success_parse 0 "bitcoin" ⟨[], [], []⟩
      [("ethereum", .obj [("usd", .num 5)])] [] 1 rfl
      (fun ce hce => by simp [List.lookup] at hce)).1 rfl
  have hnum := (C3_success_parse 0 "bitcoin" ⟨[], [], []⟩
      [("bitcoin", .obj [("usd", .num 65000)])] [("usd", .num 65000)] 65000 rfl
      (fun ce hce => by simp [List.lookup] at hce)).2.2 rfl rfl (by decide)
  exact ⟨habs.1, hnum.1, by rw [hnum.2]; rfl⟩

/-- Counterexample to C3 as stated: with the usd field present and holding
the price value 0, the code returns "Price not available." and stores
nothing, instead of returning "The current price of bitcoin is $0 USD."
and caching it, because if price: treats the number 0 as false. -/
theorem C3_success_parse_counterexample :
    (get_crypto_price 0 (.success (.obj [("bitcoin", .obj [("usd", .num 0)])]))
        "bitcoin" ⟨[], [], []⟩).outcome = .ok "Price not available."
    ∧ (get_crypto_price 0 (.success (.obj [("bitcoin", .obj [("usd", .num 0)])]))
        "bitcoin" ⟨[], [], []⟩).state.cache = [] := by
  exact ⟨rfl, rfl⟩

/-- C4: a call that the rate limiter rejects returns exactly the fixed
advisory string, leaves the cache unchanged at every key (the whole
association list is unchanged), leaves the context unchanged, and issues no
network request; and any call made while the API is failing at the
transport/HTTP level leaves the cache unchanged as well. -/
theorem C4_reject_frame (now : Int) (api : ApiResult) (sym : String) (s : AgentState) :
    ((is_rate_limited now s).1 = true →
      (get_crypto_price now api sym s).outcome = .ok rateLimitMessage
      ∧ (get_crypto_price now api sym s).state.cache = s.cache
      ∧ (get_crypto_price now api sym s).state.context = s.context
      ∧ (get_crypto_price now api sym s).usedNetwork = false)
    ∧ (api = .transportError →
      (get_crypto_price now api sym s).state.cache = s.cache) := by
  constructor
  · intro h
    rw [get_crypto_price_limited now api sym s h]
    exact ⟨rfl, is_rate_limited_cache now s, is_rate_limited_context now s, rfl⟩
  · intro h
    subst h
    unfold get_crypto_price
    cases hrl : is_rate_limited now s with
    | mk b s1 =>
      have hc : s1.cache = s.cache := by
        have := is_rate_limited_cache now s
        rw [hrl] at this
        exact this
      cases b with
      | true => exact hc
      | false =>
        simp only
        cases hl : s1.cache.lookup sym with
        | none => exact hc
        | some ce =>
          simp only
          split
          · exact hc
          · exact hc

/-- Witness for C4 at a state whose five recorded timestamps all lie in the
window of a call at time 10: the call is rejected with the advisory string,
no network request is made, and the (empty) cache is untouched. -/
theorem C4_reject_frame_witness :
    (get_crypto_price 10 .transportError "bitcoin" ⟨[], [], [0, 1, 2, 3, 4]⟩).outcome =
      .ok rateLimitMessage
    ∧ (get_crypto_price 10 .transportError "bitcoin" ⟨[], [], [0, 1, 2, 3, 4]⟩).state.cache = []
    ∧ (get_crypto_price 10 .transportError "bitcoin" ⟨[], [], [0, 1, 2, 3, 4]⟩).usedNetwork =
      false := by
  have h := (C4_reject_frame 10 .transportError "bitcoin" ⟨[], [], [0, 1, 2, 3, 4]⟩).1
    (by decide)
  exact ⟨h.1, h.2.1, h.2.2.2⟩

/-- C5 (amended): classify_intent returns the value "general" when the
completion call raises, when no fenced JSON block is found, when the
extracted block fails to parse as JSON, and (via the caught AttributeError)
when it parses to a non-object; when the block parses to an object with an
intent field it returns that field's value.  However, when the object
parses but lacks the intent field, the function returns Python None (here
none) rather than "general" — intent_data.get("intent") supplies None and
no fallback applies (see the counterexample); the dispatcher then routes
None to the general branch.  The function is total by construction: every
exception of the body is caught by the two except clauses. -/
theorem C5_intent_fallback (e t g : String) :
    classify_intent (.exn e) = some (.str "general")
    ∧ (extractFenced t = none → classify_intent (.text t) = some (.str "general"))
    ∧ (extractFenced t = some g → jsonParse g = none →
        classify_intent (.text t) = some (.str "general"))
    ∧ (∀ fields v, extractFenced t = some g → jsonParse g = some (.obj fields) →
        jsonLookup fields "intent" = some v → classify_intent (.text t) = some v)
    ∧ (∀ fields, extractFenced t = some g → jsonParse g = some (.obj fields) →
        jsonLookup fields "intent" = none → classify_intent (.text t) = none) := by
  refine ⟨rfl, ?_, ?_, ?_, ?_⟩
  · intro h
    unfold classify_intent
    dsimp only
    rw [h]
  · intro h1 h2
    unfold classify_intent
    dsimp only
    rw [h1]
    dsimp only
    rw [h2]
  · intro fields v h1 h2 h3
    unfold classify_intent
    dsimp only
    rw [h1]
    dsimp only
    rw [h2]
    exact h3
  · intro fields h1 h2 h3
    unfold classify_intent
    dsimp only
    rw [h1]
    dsimp only
    rw [h2]
    exact h3

/-- Witness for C5 on concrete response texts: a raised completion, a text
with no fence, a fence with unparsable content, and a valid fence carrying
intent crypto. -/
theorem C5_intent_fallback_witness :
    classify_intent (.exn "Boom") = some (.str "general")
    ∧ classify_intent (.text "no fence here") = some (.str "general")
    ∧ classify_intent (.text "```json\n\x7bbad\x7d\n```") = some (.str "general")
    ∧ classify_intent (.text "```json\n\x7b\"intent\": \"crypto\"\x7d\n```") =
        some (.str "crypto") := by
  refine ⟨(C5_intent_fallback "Boom" "" "").1, ?_, ?_, ?_⟩
  · exact (C5_intent_fallback "Boom" "no fence here" "").2.1 rfl
  · exact (C5_intent_fallback "Boom" "```json\n\x7bbad\x7d\n```" "\x7bbad\x7d").2.2.1 rfl rfl
  · exact (C5_intent_fallback "Boom" "```json\n\x7b\"intent\": \"crypto\"\x7d\n```"
      "\x7b\"intent\": \"crypto\"\x7d").2.2.2.1 [("intent", .str "crypto")] (.str "crypto")
      rfl rfl rfl

/-- Counterexample to C5 as stated: a well-formed fenced JSON object that
lacks the intent field makes classify_intent return none (Python None, from
intent_data.get("intent")), not the label "general" the claim requires. -/
theorem C5_intent_fallback_counterexample :
    classify_intent (.text "```json\n\x7b\"foo\": 1\x7d\n```") = none
    ∧ (none : Option Json) ≠ some (.str "general") := by
  exact ⟨rfl, by simp⟩

/-- C6: the crypto branch adds the scripted introduction exactly when the
context holds no assistant message: with no prior assistant message the
resulting context continues the old one with the introduction first; with a
prior assistant message the handler equals the bare try block, so no
introduction is added; and after any run of the branch the context contains
an assistant message, hence no later entry into the branch adds the
introduction again. -/
theorem C6_intro_once (now : Int) (comp : CompletionResult) (api : String → ApiResult)
    (s : AgentState) :
    (s.context.any (fun m => m.role == "assistant") = false →
      ∃ tail, (process_crypto_query now comp api s).1.context =
        s.context ++ ⟨"assistant", introMessage⟩ :: tail)
    ∧ (s.context.any (fun m => m.role == "assistant") = true →
      process_crypto_query now comp api s = cryptoTry now comp api s)
    ∧ (process_crypto_query now comp api s).1.context.any
        (fun m => m.role == "assistant") = true := by
  have hno : s.context.any (fun m => m.role == "assistant") = false →
      ∃ tail, (process_crypto_query now comp api s).1.context =
        s.context ++ ⟨"assistant", introMessage⟩ :: tail := by
    intro h
    have hi : introStep s = add_message_to_context "assistant" introMessage s := by
      unfold introStep
      rw [h]
      simp
    obtain ⟨tail, ht⟩ := cryptoTry_context now comp api (introStep s)
    refine ⟨tail, ?_⟩
    unfold process_crypto_query
    rw [ht, hi]
    simp [add_message_to_context]
  have hyes : s.context.any (fun m => m.role == "assistant") = true →
      process_crypto_query now comp api s = cryptoTry now comp api s := by
    intro h
    have hi : introStep s = s := by
      unfold introStep
      rw [h]
      simp
    unfold process_crypto_query
    rw [hi]
  refine ⟨hno, hyes, ?_⟩
  cases hA : s.context.any (fun m => m.role == "assistant") with
  | false =>
    obtain ⟨tail, ht⟩ := hno hA
    rw [ht]
    simp
  | true =>
    rw [hyes hA]
    obtain ⟨tail, ht⟩ := cryptoTry_context now comp api s
    rw [ht]
    exact any_assistant_append _ _ hA

/-- Witness for C6: a context holding only a user message receives the
introduction; a context already holding an assistant message leaves the
handler equal to the bare try block. -/
theorem C6_intro_once_witness :
    (∃ tail, (process_crypto_query 0 (.exn "Boom") (fun _ => .transportError)
        ⟨[⟨"user", "hi"⟩], [], []⟩).1.context =
      [⟨"user", "hi"⟩] ++ ⟨"assistant", introMessage⟩ :: tail)
    ∧ process_crypto_query 0 (.exn "Boom") (fun _ => .transportError)
        ⟨[⟨"assistant", "x"⟩], [], []⟩ =
      cryptoTry 0 (.exn "Boom") (fun _ => .transportError) ⟨[⟨"assistant", "x"⟩], [], []⟩ := by
  constructor
  · exact (C6_intro_once 0 (.exn "Boom") (fun _ => .transportError)
      ⟨[⟨"user", "hi"⟩], [], []⟩).1 (by decide)
  · exact (C6_intro_once 0 (.exn "Boom") (fun _ => .transportError)
      ⟨[⟨"assistant", "x"⟩], [], []⟩).2.1 (by decide)

/-- C7 (amended): a failing tool-call iteration leaves the context exactly
as it was at the start of that iteration and aborts the loop at once, its
exception being caught by the handler; a raised completion in the general
branch appends nothing; and a raised completion in the crypto branch
appends nothing beyond the introduction step.  The unamended claim — that
no assistant message at all is appended in a turn that hits an error — fails
when an earlier tool call of the same turn already appended its result
before a later one failed (see the counterexample). -/
theorem C7_branch_errors (now : Int) (api : String → ApiResult) (c : ToolCall)
    (rest : List ToolCall) (s s1 : AgentState) (e : String) :
    (processOneToolCall now api c s = (s1, some e) →
      s1.context = s.context ∧ runToolCalls now api (c :: rest) s = (s1, some e))
    ∧ (∀ (e2 : String) (st : AgentState),
        process_general_query (.exn e2) st = (st, some e2))
    ∧ (∀ (e2 : String) (st : AgentState),
        (process_crypto_query now (.exn e2) api st).1.context = (introStep st).context
        ∧ (process_crypto_query now (.exn e2) api st).2 = some e2) := by
  refine ⟨?_, fun e2 st => rfl, fun e2 st => ⟨rfl, rfl⟩⟩
  intro h
  refine ⟨processOneToolCall_fail_context now api c s s1 e h, ?_⟩
  unfold runToolCalls
  rw [h]

/-- Witness for C7: a lone tool call with unparsable arguments ends the
turn with the JSONDecodeError caught and nothing appended, and a raised
general-branch completion appends nothing. -/
theorem C7_branch_errors_witness :
    runToolCalls 0 (fun _ => .transportError)
        [⟨"get_crypto_price", "not json"⟩] ⟨[], [], []⟩ =
      (⟨[], [], []⟩, some "JSONDecodeError")
    ∧ process_general_query (.exn "Boom") ⟨[], [], []⟩ = (⟨[], [], []⟩, some "Boom") := by
  have h := C7_branch_errors 0 (fun _ => .transportError)
    ⟨"get_crypto_price", "not json"⟩ [] ⟨[], [], []⟩ ⟨[], [], []⟩ "JSONDecodeError"
  exact ⟨(h.1 rfl).2, h.2.1 "Boom" ⟨[], [], []⟩⟩

/-- Counterexample to C7 as stated: a crypto turn whose completion requests
two tool calls, the first well-formed and the second with unparsable
arguments.  The parse error is caught inside the handler (second component
some "JSONDecodeError"), but the turn does append assistant messages: the
introduction and the first call's price result remain in the context. -/
theorem C7_branch_errors_counterexample :
    (process_crypto_query 0
        (.ok ⟨some [⟨"get_crypto_price", "\x7b\"crypto_symbol\": \"bitcoin\"\x7d"⟩,
                    ⟨"get_crypto_price", "not json"⟩], ""⟩)
        (fun _ => .success (.obj [("bitcoin", .obj [("usd", .num 65000)])]))
        ⟨[⟨"user", "price of bitcoin?"⟩], [], []⟩).2 = some "JSONDecodeError"
    ∧ (process_crypto_query 0
        (.ok ⟨some [⟨"get_crypto_price", "\x7b\"crypto_symbol\": \"bitcoin\"\x7d"⟩,
                    ⟨"get_crypto_price", "not json"⟩], ""⟩)
        (fun _ => .success (.obj [("bitcoin", .obj [("usd", .num 65000)])]))
        ⟨[⟨"user", "price of bitcoin?"⟩], [], []⟩).1.context =
      [⟨"user", "price of bitcoin?"⟩, ⟨"assistant", introMessage⟩,
       ⟨"assistant", "The current price of bitcoin is $65000 USD."⟩] := by
  exact ⟨rfl, rfl⟩

/-- C8: the conversation context is append-only.  For every operation of
the agent — appending a message, dispatching a user message, each of the
three branch handlers, and the price lookup — the context after the
operation extends the context before it: the old sequence is a prefix and
no element is removed, reordered or mutated (the price lookup never touches
the context at all). -/
theorem C8_context_append_only (now : Int) (role content : String)
    (classifyReply : LlmReply) (comp : CompletionResult) (api : String → ApiResult)
    (user_message sym : String) (apiOne : ApiResult) (s : AgentState) :
    (add_message_to_context role content s).context = s.context ++ [⟨role, content⟩]
    ∧ (∃ tail, (process_user_message now classifyReply comp api user_message s).context =
        s.context ++ tail)
    ∧ (∃ tail, (process_crypto_query now comp api s).1.context = s.context ++ tail)
    ∧ (process_language_change s).context = s.context ++ [⟨"assistant", langChangeMessage⟩]
    ∧ (∃ tail, (process_general_query comp s).1.context = s.context ++ tail)
    ∧ (get_crypto_price now apiOne sym s).state.context = s.context := by
  refine ⟨rfl, ?_, ?_, rfl, ?_, ?_⟩
  · exact process_user_message_context now classifyReply comp api user_message s
  · exact process_crypto_query_context now comp api s
  · exact process_general_query_context comp s
  · exact get_crypto_price_context now apiOne sym s

/-- C9 (amended): two calls to get_crypto_price for the same symbol within
the 60-second freshness window produce byte-identical output and exactly
one network request, provided the first call passes the rate limiter,
misses the cache and fetches a nonzero price successfully, and the second
call passes the rate limiter.  The second call is then answered from the
cache stored by the first, whatever the API would return for it.  (The
unamended claim, quantifying over all pairs of calls, fails: two calls
that both fail at the transport level each issue a network request — see
the counterexample; a rate-limited second call would likewise produce a
different output string.) -/
theorem C9_repeat_cached (t1 t2 : Int) (sym : String) (s : AgentState)
    (fields inner : List (String × Json)) (p : Int) (api2 : ApiResult)
    (hrl1 : (is_rate_limited t1 s).1 = false)
    (hmiss : ∀ ce, s.cache.lookup sym = some ce → ¬(t1 - ce.timestamp < 60))
    (h1 : jsonLookup fields sym = some (.obj inner))
    (h2 : jsonLookup inner "usd" = some (.num p))
    (hp : p ≠ 0)
    (hrl2 : (is_rate_limited t2
      (get_crypto_price t1 (.success (.obj fields)) sym s).state).1 = false)
    (hw : t2 - t1 < 60) :
    (get_crypto_price t2 api2 sym
        (get_crypto_price t1 (.success (.obj fields)) sym s).state).outcome =
      (get_crypto_price t1 (.success (.obj fields)) sym s).outcome
    ∧ (get_crypto_price t1 (.success (.obj fields)) sym s).usedNetwork = true
    ∧ (get_crypto_price t2 api2 sym
        (get_crypto_price t1 (.success (.obj fields)) sym s).state).usedNetwork = false := by
  have e1 : get_crypto_price t1 (.success (.obj fields)) sym s =
      fetchFromApi t1 (.success (.obj fields)) sym (is_rate_limited t1 s).2 :=
    get_crypto_price_miss t1 _ sym s hrl1 hmiss
  have e2 := fetchFromApi_usd_num t1 sym (is_rate_limited t1 s).2 fields inner p h1 h2 hp
  have hstate : (get_crypto_price t1 (.success (.obj fields)) sym s).state.cache =
      dictInsert sym ⟨priceMessage sym (some (.num p)), t1⟩ (is_rate_limited t1 s).2.cache := by
    rw [e1, e2]
  have hlook : (get_crypto_price t1 (.success (.obj fields)) sym s).state.cache.lookup sym =
      some ⟨priceMessage sym (some (.num p)), t1⟩ := by
    rw [hstate]
    exact lookup_dictInsert sym _ _
  have e3 := get_crypto_price_hit t2 api2 sym
    (get_crypto_price t1 (.success (.obj fields)) sym s).state
    ⟨priceMessage sym (some (.num p)), t1⟩ hrl2 hlook (by simpa using hw)
  refine ⟨?_, ?_, ?_⟩
  · rw [e3, e1, e2]
  · rw [e1, e2]
  · rw [e3]

/-- Witness for C9: a successful fetch of the bitcoin price at time 0
followed by a second request at time 30 (while the API is down) returns the
identical string from the cache without a second network request. -/
theorem C9_repeat_cached_witness :
    (get_crypto_price 30 .transportError "bitcoin"
        (get_crypto_price 0 (.success (.obj [("bitcoin", .obj [("usd", .num 65000)])]))
          "bitcoin" ⟨[], [], []⟩).state).outcome =
      (get_crypto_price 0 (.success (.obj [("bitcoin", .obj [("usd", .num 65000)])]))
          "bitcoin" ⟨[], [], []⟩).outcome
    ∧ (get_crypto_price 30 .transportError "bitcoin"
        (get_crypto_price 0 (.success (.obj [("bitcoin", .obj [("usd", .num 65000)])]))
          "bitcoin" ⟨[], [], []⟩).state).usedNetwork = false := by
  have h := C9_repeat_cached 0 30 "bitcoin" ⟨[], [], []⟩
    [("bitcoin", .obj [("usd", .num 65000)])] [("usd", .num 65000)] 65000 .transportError
    rfl (fun ce hce => by simp [List.lookup] at hce) rfl rfl (by decide) (by decide)
    (by decide)
  exact ⟨h.1, h.2.2⟩

/-- Counterexample to C9 as stated: two calls for the same symbol one
second apart while the price API fails at the transport level.  Both calls
miss the cache (a failed fetch stores nothing) and both issue a network
request, so the pair issues two network requests, not at most one. -/
theorem C9_repeat_cached_counterexample :
    (get_crypto_price 0 .transportError "bitcoin" ⟨[], [], []⟩).usedNetwork = true
    ∧ (get_crypto_price 1 .transportError "bitcoin"
        (get_crypto_price 0 .transportError "bitcoin" ⟨[], [], []⟩).state).usedNetwork =
      true := by
  exact ⟨rfl, rfl⟩

/-- C10: every call to get_crypto_price that passes the rate limiter
appends the current timestamp to the (pruned) request record — the check
and the recording happen before the cache is consulted — so a call served
entirely from a fresh cache entry, which issues no network request and
returns the cached string, still consumes one of the five slots of the
60-second window. -/
theorem C10_cached_call_consumes_slot (now : Int) (api : ApiResult) (sym : String)
    (s : AgentState) (h : (is_rate_limited now s).1 = false) :
    (get_crypto_price now api sym s).state.request_timestamps =
      s.request_timestamps.filter (fun t => decide (now - t < rate_limit_window)) ++ [now]
    ∧ (∀ ce, s.cache.lookup sym = some ce → now - ce.timestamp < 60 →
        (get_crypto_price now api sym s).usedNetwork = false
        ∧ (get_crypto_price now api sym s).outcome = .ok ce.price) := by
  constructor
  · rw [get_crypto_price_timestamps]
    exact is_rate_limited_false_timestamps now s h
  · intro ce hlook hfresh
    rw [get_crypto_price_hit now api sym s ce h hlook hfresh]
    exact ⟨rfl, rfl⟩

/-- Witness for C10: at time 30 with a fresh cache entry for bitcoin stored
at time 0 and an empty request record, the call is answered from the cache
with no network request, yet the timestamp 30 is recorded in the
rate-limit window. -/
theorem C10_cached_call_consumes_slot_witness :
    (get_crypto_price 30 .transportError "bitcoin"
      ⟨[], [("bitcoin", ⟨"The current price of bitcoin is $65000 USD.", 0⟩)], []⟩).state.request_timestamps = [30]
    ∧ (get_crypto_price 30 .transportError "bitcoin"
      ⟨[], [("bitcoin", ⟨"The current price of bitcoin is $65000 USD.", 0⟩)], []⟩).usedNetwork = false
    ∧ (get_crypto_price 30 .transportError "bitcoin"
      ⟨[], [("bitcoin", ⟨"The current price of bitcoin is $65000 USD.", 0⟩)], []⟩).outcome = .ok "The current price of bitcoin is $65000 USD." := by
  have h := C10_cached_call_consumes_slot 30 .transportError "bitcoin"
    ⟨[], [("bitcoin", ⟨"The current price of bitcoin is $65000 USD.", 0⟩)], []⟩ rfl
  have h2 := h.2 ⟨"The current price of bitcoin is $65000 USD.", 0⟩ rfl (by decide)
  exact ⟨h.1, h2.1, h2.2⟩
